import Mathlib

set_option autoImplicit false

namespace JsBlockchain

/-!
Shallow embedding of the blockchain engine (`Block` and `Blockchain` classes).
Conventions of the embedding:

* Every block field that the hash input concatenates is kept in its JavaScript
  string form (`index`, `timestamp`, serialized payload, `previousHash`), since
  the source only ever uses them via string concatenation fed to SHA256.
  The `data` field stores `JSON.stringify(this.data)`, the serialized payload.
* The SHA256 primitive from `crypto-js` is an external trusted dependency, so it
  is modelled as a parameter `H : String → String`; theorems about tamper
  detection assume it collision-free (`Function.Injective H`), which is the
  symbolic counterpart of the collision-resistance the design relies on.
* `nonce` is a `Nat`. In the source it starts as the string `'0'` and `nonce++`
  turns it into the number 1, 2, ...; in every hash input the contribution is the
  decimal string, which `toString` reproduces exactly.
* The constructor computes `this.hash` one line before `this.nonce = '0'` is
  assigned, so at that moment `this.nonce` is `undefined` and the concatenation
  ends in the string `"undefined"`. The embedding keeps this behaviour.
* The unbounded `while` loop of `mineBlock` is modelled with fuel; `none` means
  the loop has not exited within the given number of iterations.
-/

/-- State of a JavaScript `Block` object. Fields are the JS string forms used in
the hash input; `data` holds the serialized (`JSON.stringify`) payload. -/
structure Block where
  index : String
  timestamp : String
  data : String
  previousHash : String
  hash : String
  nonce : Nat
  deriving DecidableEq, Inhabited

/-- Concatenation `index + timestamp + previousHash + JSON.stringify(data) + nonce`
fed to SHA256 by `calculateHash`, with the nonce already in string form. -/
def hashInput (index timestamp previousHash dataJson nonceStr : String) : String :=
  index ++ timestamp ++ previousHash ++ dataJson ++ nonceStr

/-- Model of `Block.calculateHash()`: the digest primitive applied to the
concatenated current fields of the block. -/
def calculateHash (H : String → String) (b : Block) : String :=
  H (hashInput b.index b.timestamp b.previousHash b.data (toString b.nonce))

/-- Model of the `Block` constructor. Mirrors the source exactly: the stored
hash is computed by `calculateHash` while `this.nonce` is still `undefined`
(so the concatenation ends in `"undefined"`), and only afterwards is the nonce
set to 0. In the source the default for `previousHash` is the empty string;
callers of this model pass it explicitly. -/
def Block.construct (H : String → String) (index timestamp dataJson previousHash : String) :
    Block :=
  { index := index, timestamp := timestamp, data := dataJson,
    previousHash := previousHash,
    hash := H (hashInput index timestamp previousHash dataJson "undefined"),
    nonce := 0 }

/-- Guard of the mining loop, negated: `hash.substring(0, difficulty)` compared
with a string of `difficulty` zero characters (`Array(difficulty+1).join("0")`). -/
def hashMeetsDifficulty (difficulty : Nat) (hash : String) : Bool :=
  hash.data.take difficulty == List.replicate difficulty '0'

/-- One iteration of the mining loop: `this.nonce++` followed by
`this.hash = this.calculateHash()` (the new hash covers the new nonce). -/
def mineStep (H : String → String) (b : Block) : Block :=
  let b1 : Block := { b with nonce := b.nonce + 1 }
  { b1 with hash := calculateHash H b1 }

/-- Fuel-bounded model of `Block.mineBlock(difficulty)`. The loop tests the
currently stored hash before any recomputation, so a block entering with a
stored hash that already meets the difficulty is returned unchanged. `none`
models the loop not having exited within `fuel` iterations. -/
def mineBlock (H : String → String) (difficulty : Nat) (fuel : Nat) (b : Block) :
    Option Block :=
  if hashMeetsDifficulty difficulty b.hash then some b
  else
    match fuel with
    | 0 => none
    | fuel1 + 1 => mineBlock H difficulty fuel1 (mineStep H b)

/-- State of the JavaScript `Blockchain` object. -/
structure Blockchain where
  chain : List Block
  difficulty : Nat
  deriving DecidableEq, Inhabited

/-- Model of `createGenesisBlock()`: `new Block(0, "23/01/2018", "Genesis block
data", "0")`. The numeric index 0 contributes the string `"0"` to the hash
input, and `JSON.stringify` of the payload string adds surrounding quotes. -/
def createGenesisBlock (H : String → String) : Block :=
  Block.construct H "0" "23/01/2018" "\"Genesis block data\"" "0"

/-- Model of the `Blockchain` constructor: a one-element chain holding the
genesis block, and the hardcoded default difficulty 5. -/
def Blockchain.construct (H : String → String) : Blockchain :=
  { chain := [createGenesisBlock H], difficulty := 5 }

/-- Model of `getLatestBlock()`: `this.chain[this.chain.length - 1]`. -/
def getLatestBlock (c : Blockchain) : Block :=
  c.chain.getD (c.chain.length - 1) default

/-- Model of `addBlock(newBlock)`: set the candidate's `previousHash` to the
tip's stored hash, mine it at the chain's difficulty (the hash recalculation of
the old Step 2 is commented out in the source), then push it. `none` only when
the mining loop fails to exit within `fuel` iterations. -/
def addBlock (H : String → String) (fuel : Nat) (c : Blockchain) (newBlock : Block) :
    Option Blockchain :=
  let wired : Block := { newBlock with previousHash := (getLatestBlock c).hash }
  match mineBlock H c.difficulty fuel wired with
  | some mined => some { c with chain := c.chain ++ [mined] }
  | none => none

/-- Body of the `isChainValid()` loop from the position after `prev`: for each
block, return false if its stored hash differs from its recomputed hash, then
return false if its `previousHash` differs from the predecessor's stored hash,
otherwise continue. -/
def validFrom (H : String → String) : Block → List Block → Bool
  | _, [] => true
  | prev, cur :: rest =>
    if cur.hash ≠ calculateHash H cur then false
    else if cur.previousHash ≠ prev.hash then false
    else validFrom H cur rest

/-- Model of `isChainValid()` on the underlying list: the loop starts at index 1
(index 0 is the genesis block), so the head only ever serves as predecessor. -/
def isValidList (H : String → String) : List Block → Bool
  | [] => true
  | b0 :: rest => validFrom H b0 rest

/-- Model of `Blockchain.isChainValid()`. -/
def Blockchain.isChainValid (H : String → String) (c : Blockchain) : Bool :=
  isValidList H c.chain

/-- Mutation performed by the self-healing tamper scenario: overwrite the
payload and then recalculate the stored hash from the mutated fields. -/
def tamperRecalc (H : String → String) (b : Block) (dataNew : String) : Block :=
  let b1 : Block := { b with data := dataNew }
  { b1 with hash := calculateHash H b1 }

/-- Run of a construction sequence: fold `addBlock` over freshly constructed
blocks, each given by (index, timestamp, serialized payload), with the
constructor's default empty `previousHash`. -/
def buildChain (H : String → String) (fuel : Nat) :
    Blockchain → List (String × String × String) → Option Blockchain
  | c, [] => some c
  | c, (idx, ts, dataJson) :: rest =>
    match addBlock H fuel c (Block.construct H idx ts dataJson "") with
    | some c1 => buildChain H fuel c1 rest
    | none => none

/-- Injective stand-in for the digest primitive, used to instantiate the
abstract `H` on concrete runs. Hash inputs ending in the nonce string "1" get a
prefix of five zeros, so mining at the default difficulty 5 exits after exactly
one iteration; the input itself is kept as a suffix, which makes the function
injective. -/
def demoHash (s : String) : String :=
  (if s.data.getLast? = some '1' then "00000" else "11111") ++ s

/-- Digest stand-in for the append counterexample: inputs ending in the literal
"undefined" (exactly the hash inputs produced by the constructor before the
nonce is assigned) are mapped to a digest of five zeros, every other input to a
digest with no leading zero. -/
def cbugHash (s : String) : String :=
  if "undefined".data.isSuffixOf s.data then "00000" else "11111"

/-- Candidate block of the append counterexample. With the real SHA256 the same
role is played by `new Block("1", "21/01/2018", \x7bamount: 212375\x7d)`, whose
constructor-time digest `00000fdfab5b...` already starts with five zeros. -/
def cbugCandidate : Block :=
  Block.construct cbugHash "1" "21/01/2018" "\x7b\"amount\":212375\x7d" ""

/-- Concrete block for the mining witness: its stored hash already starts with
a zero character, so mining at difficulty 1 returns it unchanged. -/
def w3block : Block :=
  { index := "i", timestamp := "t", data := "d", previousHash := "p",
    hash := "0abc", nonce := 7 }

/-- Candidate block for the append-steps witness, built by the constructor with
the default empty `previousHash`. -/
def w4candidate : Block := Block.construct demoHash "1" "t1" "d1" ""

/-- Block state the append-steps witness expects after mining: `previousHash`
rewired to the genesis hash, one mining iteration taken. -/
def w4mined : Block :=
  mineStep demoHash
    { w4candidate with previousHash := (getLatestBlock (Blockchain.construct demoHash)).hash }

/-- Genesis block of the payload-tampering witness chain. Its stored hash is
never re-checked by the walk, so any string works. -/
def w5genesis : Block :=
  { index := "0", timestamp := "t0", data := "g0", previousHash := "0",
    hash := "gh", nonce := 0 }

/-- Second block of the payload-tampering witness chain: internally consistent
under `demoHash` and correctly linked to `w5genesis`. -/
def w5b1 : Block :=
  { index := "1", timestamp := "t1", data := "d1", previousHash := "gh",
    hash := demoHash (hashInput "1" "t1" "gh" "d1" "0"), nonce := 0 }

/-- Valid two-block chain used by the payload-tampering witness. -/
def w5chain : List Block := [w5genesis, w5b1]

/-- Genesis block of the self-healing witness chain. -/
def w6genesis : Block :=
  { index := "0", timestamp := "s0", data := "g6", previousHash := "0",
    hash := "kh", nonce := 0 }

/-- Second block of the self-healing witness chain, consistent and linked. -/
def w6b1 : Block :=
  { index := "1", timestamp := "s1", data := "e1", previousHash := "kh",
    hash := demoHash (hashInput "1" "s1" "kh" "e1" "0"), nonce := 0 }

/-- Third block of the self-healing witness chain, consistent and linked. -/
def w6b2 : Block :=
  { index := "2", timestamp := "s2", data := "e2",
    previousHash := demoHash (hashInput "1" "s1" "kh" "e1" "0"),
    hash := demoHash (hashInput "2" "s2" (demoHash (hashInput "1" "s1" "kh" "e1" "0")) "e2" "0"),
    nonce := 0 }

/-- Valid three-block chain used by the self-healing witness. -/
def w6chain : List Block := [w6genesis, w6b1, w6b2]

/-- Construction sequence used by the determinism witness: two blocks with
caller-chosen indices, timestamps and serialized payloads. -/
def w9script : List (String × String × String) := [("1", "u1", "f1"), ("2", "u2", "f2")]


theorem string_data_inj {a b : String} (h : a.data = b.data) : a = b := by
  cases a; cases b; cases h; rfl

theorem string_data_append (a b : String) : (a ++ b).data = a.data ++ b.data := rfl

theorem hashInput_data_cancel {idx ts prev d1 d2 n : String}
    (h : hashInput idx ts prev d1 n = hashInput idx ts prev d2 n) : d1 = d2 := by
  have hd := congrArg String.data h
  simp only [hashInput, string_data_append, List.append_assoc] at hd
  have h1 := List.append_cancel_left hd
  have h2 := List.append_cancel_left h1
  have h3 := List.append_cancel_left h2
  have h4 := List.append_cancel_right h3
  exact string_data_inj h4

theorem demoHash_injective : Function.Injective demoHash := by
  intro a b h
  have hd := congrArg String.data h
  simp only [demoHash, string_data_append] at hd
  have hlen : (if a.data.getLast? = some '1' then "00000" else "11111").data.length = 5 := by
    split <;> rfl
  have hlenb : (if b.data.getLast? = some '1' then "00000" else "11111").data.length = 5 := by
    split <;> rfl
  have hdrop := congrArg (List.drop 5) hd
  rw [List.drop_append_of_le_length (le_of_eq hlen.symm),
      List.drop_append_of_le_length (le_of_eq hlenb.symm),
      List.drop_eq_nil_of_le (le_of_eq hlen), List.drop_eq_nil_of_le (le_of_eq hlenb)] at hdrop
  simpa using string_data_inj (by simpa using hdrop)


theorem validFrom_cons (H : String → String) (prev cur : Block) (rest : List Block) :
    validFrom H prev (cur :: rest) = true ↔
      cur.hash = calculateHash H cur ∧ cur.previousHash = prev.hash ∧
        validFrom H cur rest = true := by
  simp only [validFrom]
  by_cases h1 : cur.hash = calculateHash H cur <;>
    by_cases h2 : cur.previousHash = prev.hash <;> simp [h1, h2]

theorem validFrom_iff_forall (H : String → String) (prev : Block) (l : List Block) :
    validFrom H prev l = true ↔
      ∀ i, i < l.length →
        ((l.getD i default).hash = calculateHash H (l.getD i default) ∧
         (l.getD i default).previousHash =
           (if i = 0 then prev else l.getD (i - 1) default).hash) := by
  induction l generalizing prev with
  | nil => simp [validFrom]
  | cons cur rest ih =>
    rw [validFrom_cons]
    constructor
    · rintro ⟨h1, h2, h3⟩ i hi
      cases i with
      | zero => simpa using ⟨h1, h2⟩
      | succ j =>
        have hj : j < rest.length := by simpa using hi
        have hrec := (ih cur).mp h3 j hj
        cases j with
        | zero => simpa using hrec
        | succ k => simpa using hrec
    · intro h
      refine ⟨by simpa using (h 0 (by simp)).1, by simpa using (h 0 (by simp)).2, ?_⟩
      rw [ih cur]
      intro j hj
      have hstep := h (j + 1) (by simpa using hj)
      cases j with
      | zero => simpa using hstep
      | succ k => simpa using hstep

theorem isValidList_iff_forall (H : String → String) (c : List Block) :
    isValidList H c = true ↔
      ∀ i, i + 1 < c.length →
        ((c.getD (i + 1) default).hash = calculateHash H (c.getD (i + 1) default) ∧
         (c.getD (i + 1) default).previousHash = (c.getD i default).hash) := by
  cases c with
  | nil => simp [isValidList]
  | cons b0 rest =>
    show validFrom H b0 rest = true ↔ _
    rw [validFrom_iff_forall]
    constructor
    · intro h i hi
      have hstep := h i (by simpa using hi)
      cases i with
      | zero => simpa using hstep
      | succ k => simpa using hstep
    · intro h i hi
      have hstep := h i (by simpa using hi)
      cases i with
      | zero => simpa using hstep
      | succ k => simpa using hstep

theorem mineBlock_preserves (H : String → String) (d : Nat) :
    ∀ fuel : Nat, ∀ b b2 : Block, mineBlock H d fuel b = some b2 →
      b2.index = b.index ∧ b2.timestamp = b.timestamp ∧ b2.data = b.data ∧
        b2.previousHash = b.previousHash := by
  intro fuel
  induction fuel with
  | zero =>
    intro b b2 h
    rw [mineBlock] at h
    split at h
    · cases h; exact ⟨rfl, rfl, rfl, rfl⟩
    · cases h
  | succ n ih =>
    intro b b2 h
    rw [mineBlock] at h
    split at h
    · cases h; exact ⟨rfl, rfl, rfl, rfl⟩
    · exact ih (mineStep H b) b2 h


/-- C1 (refuted by the code, recorded as a code bug): the constructor assigns
the stored hash one line before assigning the nonce, so the stored digest is
computed with the string "undefined" in the nonce position while the block ends
construction with nonce 0; recomputing the digest from the current fields (nonce
string "0") therefore disagrees with the stored digest, shown concretely with
the identity digest on the demo block fields. -/
theorem construct_digest_over_undefined :
    (∀ H : String → String, ∀ idx ts dataJson prev : String,
        (Block.construct H idx ts dataJson prev).nonce = 0 ∧
        (Block.construct H idx ts dataJson prev).hash =
          H (hashInput idx ts prev dataJson "undefined")) ∧
    (Block.construct id "1" "21/01/2018" "\x7b\"amount\":6\x7d" "").hash ≠
      calculateHash id (Block.construct id "1" "21/01/2018" "\x7b\"amount\":6\x7d" "") :=
  ⟨fun _ _ _ _ _ => ⟨rfl, rfl⟩, by decide⟩


theorem construct_digest_over_undefined_witness :
    (Block.construct id "1" "21/01/2018" "\x7b\"amount\":6\x7d" "").nonce = 0 :=
  (construct_digest_over_undefined.1 id "1" "21/01/2018" "\x7b\"amount\":6\x7d" "").1

/-- C2: isChainValid returns true exactly when every block at positions 1 and
beyond has a stored hash matching the hash recomputed from its own fields and a
previousHash matching the stored hash of its predecessor; position 0 (genesis)
only ever appears as a predecessor and its own digest is never re-checked. -/
theorem isChainValid_iff_checks (H : String → String) (c : Blockchain) :
    Blockchain.isChainValid H c = true ↔
      ∀ i, i + 1 < c.chain.length →
        ((c.chain.getD (i + 1) default).hash =
            calculateHash H (c.chain.getD (i + 1) default) ∧
         (c.chain.getD (i + 1) default).previousHash = (c.chain.getD i default).hash) :=
  isValidList_iff_forall H c.chain

theorem isChainValid_iff_checks_witness :
    Blockchain.isChainValid demoHash (Blockchain.construct demoHash) = true :=
  (isChainValid_iff_checks demoHash (Blockchain.construct demoHash)).mpr (by
    intro i hi
    simp [Blockchain.construct] at hi)

/-- C3: whenever the mining loop exits, the stored digest's first `difficulty`
characters are all zeros, and at difficulty 0 the loop guard is immediately
false so mining returns the block unchanged, nonce included. -/
theorem mineBlock_postcondition (H : String → String) (d fuel : Nat) (b : Block) :
    (∀ b2, mineBlock H d fuel b = some b2 →
      b2.hash.data.take d = List.replicate d '0') ∧
    mineBlock H 0 fuel b = some b := by
  constructor
  · induction fuel generalizing b with
    | zero =>
      intro b2 h
      rw [mineBlock] at h
      split at h
      case isTrue hc => cases h; simpa [hashMeetsDifficulty] using hc
      case isFalse => cases h
    | succ n ih =>
      intro b2 h
      rw [mineBlock] at h
      split at h
      case isTrue hc => cases h; simpa [hashMeetsDifficulty] using hc
      case isFalse => exact ih (mineStep H b) b2 h
  · rw [mineBlock.eq_def]
    simp [hashMeetsDifficulty]

theorem mineBlock_postcondition_witness :
    w3block.hash.data.take 1 = List.replicate 1 '0' ∧ mineBlock id 0 3 w3block = some w3block :=
  ⟨(mineBlock_postcondition id 1 3 w3block).1 w3block (by decide),
   (mineBlock_postcondition id 0 3 w3block).2⟩

/-- C4: addBlock is exactly the composition of rewiring the candidate's
previousHash to the tip's stored hash, mining it at the chain's difficulty, and
pushing the mined block; no index continuity check appears anywhere, so whenever
mining converges the push happens regardless of the candidate's index, and the
mined block keeps the candidate's index, timestamp and payload. -/
theorem addBlock_steps (H : String → String) (fuel : Nat) (c : Blockchain) (nb : Block) :
    addBlock H fuel c nb =
      (mineBlock H c.difficulty fuel
          { nb with previousHash := (getLatestBlock c).hash }).map
        (fun mined => { c with chain := c.chain ++ [mined] }) ∧
    ∀ mined, mineBlock H c.difficulty fuel
        { nb with previousHash := (getLatestBlock c).hash } = some mined →
      addBlock H fuel c nb = some { c with chain := c.chain ++ [mined] } ∧
      mined.index = nb.index ∧ mined.timestamp = nb.timestamp ∧
      mined.data = nb.data ∧ mined.previousHash = (getLatestBlock c).hash := by
  have hmap : addBlock H fuel c nb =
      (mineBlock H c.difficulty fuel
          { nb with previousHash := (getLatestBlock c).hash }).map
        (fun mined => { c with chain := c.chain ++ [mined] }) := by
    unfold addBlock
    cases hm : mineBlock H c.difficulty fuel { nb with previousHash := (getLatestBlock c).hash } <;>
      simp [hm]
  refine ⟨hmap, fun mined h => ?_⟩
  have hp := mineBlock_preserves H c.difficulty fuel _ mined h
  exact ⟨by rw [hmap, h]; rfl, hp.1, hp.2.1, hp.2.2.1, hp.2.2.2⟩

theorem addBlock_steps_witness :
    addBlock demoHash 1 (Blockchain.construct demoHash) w4candidate =
      some { Blockchain.construct demoHash with
              chain := (Blockchain.construct demoHash).chain ++ [w4mined] } ∧
    w4mined.previousHash = (getLatestBlock (Blockchain.construct demoHash)).hash :=
  have h := (addBlock_steps demoHash 1 (Blockchain.construct demoHash) w4candidate).2
    w4mined (by decide)
  ⟨h.1, h.2.2.2.2⟩


theorem getD_set_self {l : List Block} {i : Nat} (h : i < l.length) (a : Block) :
    (l.set i a).getD i default = a := by
  rw [List.getD_eq_getElem _ _ (by simpa using h)]
  exact List.getElem_set_self _

theorem getD_set_ne {l : List Block} {i j : Nat} (hij : i ≠ j) (h : j < l.length) (a : Block) :
    (l.set i a).getD j default = l.getD j default := by
  rw [List.getD_eq_getElem _ _ (by simpa using h), List.getD_eq_getElem _ _ h]
  exact List.getElem_set_ne hij _

/-- C5: on a chain that validates, overwriting the serialized payload of any
block at position 1 or beyond, without recomputing any digest, changes that
block's hash input while its stored digest still reflects the old input, so the
walk's self-digest check fails there and isChainValid returns false. The digest
primitive is assumed collision-free. -/
theorem tamper_payload_invalidates (H : String → String) (hinj : Function.Injective H)
    (c : List Block) (i : Nat) (hpos : 1 ≤ i) (hi : i < c.length)
    (hvalid : isValidList H c = true) (dataNew : String)
    (hne : dataNew ≠ (c.getD i default).data) :
    isValidList H (c.set i { c.getD i default with data := dataNew }) = false := by
  cases hset : isValidList H (c.set i { c.getD i default with data := dataNew }) with
  | false => rfl
  | true =>
    exfalso
    obtain ⟨j, rfl⟩ : ∃ j, i = j + 1 := ⟨i - 1, by omega⟩
    have hchk := ((isValidList_iff_forall H _).mp hset j (by
      rw [List.length_set]; exact hi)).1
    rw [getD_set_self hi _] at hchk
    have hold := ((isValidList_iff_forall H c).mp hvalid j hi).1
    have hchk1 : (c.getD (j + 1) default).hash =
        calculateHash H { c.getD (j + 1) default with data := dataNew } := hchk
    have hEq : H (hashInput (c.getD (j + 1) default).index (c.getD (j + 1) default).timestamp
          (c.getD (j + 1) default).previousHash (c.getD (j + 1) default).data
          (toString (c.getD (j + 1) default).nonce)) =
        H (hashInput (c.getD (j + 1) default).index (c.getD (j + 1) default).timestamp
          (c.getD (j + 1) default).previousHash dataNew
          (toString (c.getD (j + 1) default).nonce)) := hold.symm.trans hchk1
    exact hne (hashInput_data_cancel (hinj hEq)).symm

theorem tamper_payload_invalidates_witness :
    isValidList demoHash (w5chain.set 1 { w5chain.getD 1 default with data := "dX" }) = false :=
  tamper_payload_invalidates demoHash demoHash_injective w5chain 1 (by decide) (by decide)
    (by decide) "dX" (by decide)

/-- C6: on a chain of at least three blocks that validates, overwriting block
1's payload and recomputing block 1's stored digest from the mutated fields,
while leaving block 2's previousHash alone, still makes isChainValid return
false: block 2's previousHash equals block 1's old digest, which differs from
the recomputed digest of the mutated block when the digest primitive is
collision-free. -/
theorem tamper_recalc_still_invalid (H : String → String) (hinj : Function.Injective H)
    (c : List Block) (hlen : 3 ≤ c.length)
    (hvalid : isValidList H c = true) (dataNew : String)
    (hne : dataNew ≠ (c.getD 1 default).data) :
    isValidList H (c.set 1 (tamperRecalc H (c.getD 1 default) dataNew)) = false := by
  cases hset : isValidList H (c.set 1 (tamperRecalc H (c.getD 1 default) dataNew)) with
  | false => rfl
  | true =>
    exfalso
    have h2 : 1 + 1 < c.length := by omega
    have hchk := ((isValidList_iff_forall H _).mp hset 1 (by rw [List.length_set]; omega)).2
    rw [getD_set_ne (by omega : (1 : Nat) ≠ 2) h2 _, getD_set_self (by omega) _] at hchk
    have holdB := ((isValidList_iff_forall H c).mp hvalid 1 h2).2
    have holdA := ((isValidList_iff_forall H c).mp hvalid 0 (by omega)).1
    have hEq : H (hashInput (c.getD 1 default).index (c.getD 1 default).timestamp
          (c.getD 1 default).previousHash (c.getD 1 default).data
          (toString (c.getD 1 default).nonce)) =
        H (hashInput (c.getD 1 default).index (c.getD 1 default).timestamp
          (c.getD 1 default).previousHash dataNew
          (toString (c.getD 1 default).nonce)) :=
      holdA.symm.trans (holdB.symm.trans hchk)
    exact hne (hashInput_data_cancel (hinj hEq)).symm

theorem tamper_recalc_still_invalid_witness :
    isValidList demoHash
      (w6chain.set 1 (tamperRecalc demoHash (w6chain.getD 1 default) "eX")) = false :=
  tamper_recalc_still_invalid demoHash demoHash_injective w6chain (by decide) (by decide)
    "eX" (by decide)

/-- C7 (refuted by the code, recorded as a code bug): a freshly constructed
chain validates, yet appending a candidate whose constructor-time stale digest
already meets the difficulty target produces a chain on which isChainValid
returns false, because the mining loop tests the stored digest before ever
recomputing it and so commits the candidate with a digest that does not cover
its rewired previousHash and nonce. -/
theorem append_can_break_validity :
    Blockchain.isChainValid cbugHash (Blockchain.construct cbugHash) = true ∧
    (addBlock cbugHash 0 (Blockchain.construct cbugHash) cbugCandidate).map
      (Blockchain.isChainValid cbugHash) = some false :=
  ⟨rfl, by decide⟩

/-- C8: a freshly constructed chain holds exactly the genesis block, whose
fields are the hardcoded index string "0", date "23/01/2018", serialized
payload "Genesis block data" and sentinel previousHash "0", the default
difficulty is 5, and isChainValid on the fresh chain returns true. -/
theorem fresh_chain_spec (H : String → String) :
    (Blockchain.construct H).chain = [createGenesisBlock H] ∧
    (createGenesisBlock H).index = "0" ∧
    (createGenesisBlock H).timestamp = "23/01/2018" ∧
    (createGenesisBlock H).data = "\"Genesis block data\"" ∧
    (createGenesisBlock H).previousHash = "0" ∧
    (Blockchain.construct H).difficulty = 5 ∧
    Blockchain.isChainValid H (Blockchain.construct H) = true :=
  ⟨rfl, rfl, rfl, rfl, rfl, rfl, rfl⟩


theorem fresh_chain_spec_witness :
    Blockchain.isChainValid id (Blockchain.construct id) = true :=
  (fresh_chain_spec id).2.2.2.2.2.2

/-- C9: running the same construction sequence twice from a fresh chain yields
identical digest sequences; every input of the digest computation is part of
the scripted fields, so the run is a pure function of the script. -/
theorem buildChain_deterministic (H : String → String) (fuel : Nat)
    (script : List (String × String × String)) (c1 c2 : Blockchain)
    (hrun1 : buildChain H fuel (Blockchain.construct H) script = some c1)
    (hrun2 : buildChain H fuel (Blockchain.construct H) script = some c2) :
    c1.chain.map Block.hash = c2.chain.map Block.hash := by
  rw [hrun1] at hrun2
  cases hrun2
  rfl

theorem buildChain_deterministic_witness :
    ((buildChain demoHash 1 (Blockchain.construct demoHash) w9script).getD default).chain.map
        Block.hash =
      ((buildChain demoHash 1 (Blockchain.construct demoHash) w9script).getD default).chain.map
        Block.hash :=
  buildChain_deterministic demoHash 1 w9script _ _ (by decide) (by decide)

/-- C10: the validation walk never reads the genesis block's index, timestamp
or payload; two chains that differ only in those fields of block 0 (stored
digest of block 0 and all later blocks equal) get the same verdict, so mutating
the genesis payload without touching its stored digest is never detected. -/
theorem genesis_fields_never_checked (H : String → String) (b0 : Block)
    (rest : List Block) (idxNew tsNew dataNew : String) :
    isValidList H
        ({ b0 with index := idxNew, timestamp := tsNew, data := dataNew } :: rest) =
      isValidList H (b0 :: rest) := by
  cases rest with
  | nil => rfl
  | cons b1 tail => rfl

theorem genesis_fields_never_checked_witness :
    isValidList id ({ w5genesis with index := "9", timestamp := "tX", data := "gX" } :: [w5b1]) =
      isValidList id (w5genesis :: [w5b1]) :=
  genesis_fields_never_checked id w5genesis [w5b1] "9" "tX" "gX"

end JsBlockchain
